import Mathlib

/-!
Verification of the rule engine of the Three Men's Morris game
(`src/ThreeMensMorris.cpp`).

The definitions below are a shallow embedding of the game's core logic:
slot data, the adjacency table, the prime-product win detector, the
free-slot query, and the state machine driven by mouse clicks and
motion completions.  Rendering, logging, asset loading and the SFML
window are presentation concerns and are not modelled; the continuous
position of a sliding sprite is likewise abstracted: a motion
completion is an explicit event (`Ev.arrive`), and which token a click
in the Movement phase lands on is resolved by the input layer and
passed as an `Option Nat` index (`hit`), because the pixel bounds of a
moving sprite depend on texture sizes that are not part of the source.

C++ `int` arithmetic in the win detector is modelled with
two's-complement 32-bit wraparound (`wrap32`), since the product of
all nine slot primes exceeds 2^31 - 1.
-/

namespace TMM

/-- Player enumeration: `enum class Player { A, B }`. -/
inductive Player where
  | A
  | B
deriving DecidableEq, Repr

/-- Phase enumeration: `enum class GamePhase { Start, About, Instructions, Placement, Movement, Win }`. -/
inductive GamePhase where
  | Start
  | About
  | Instructions
  | Placement
  | Movement
  | Win
deriving DecidableEq, Repr

/-- The other player, as computed by `turn == Player::A ? Player::B : Player::A`. -/
def otherPlayer (p : Player) : Player :=
  if p = Player.A then Player.B else Player.A

/-- A board slot: a fixed 2-D pixel position and a unique prime weight
(`struct Slot`). -/
structure Slot where
  position : Int × Int
  prime : Int
deriving DecidableEq, Repr

/-- The nine slots with their positions and primes, exactly as in the
global `slots` array of the source. -/
def slots : List Slot :=
  [⟨(50,  50), 13⟩, ⟨(300,  50),  3⟩, ⟨(550,  50), 23⟩,
   ⟨(50, 300), 17⟩, ⟨(300, 300), 11⟩, ⟨(550, 300),  5⟩,
   ⟨(50, 550), 29⟩, ⟨(300, 550),  7⟩, ⟨(550, 550), 19⟩]

/-- The eight winning index triples (3 rows, 3 columns, 2 diagonals),
exactly the global `winCombos` array. -/
def winCombos : List (Int × Int × Int) :=
  [(0,1,2), (3,4,5), (6,7,8),
   (0,3,6), (1,4,7), (2,5,8),
   (0,4,8), (2,4,6)]

/-- Prime of slot `i` read from a slot list, `sl[i].prime`.  Indexing a
C++ array out of range is undefined; the model returns the neutral
weight 1 in that case (never reached with valid indices). -/
def primeAt (sl : List Slot) (i : Int) : Int :=
  if i < 0 then 1 else ((sl.get? i.toNat).map Slot.prime).getD 1

/-- Product of the three slot primes of each winning combination
(`computeWinProducts`).  The three-prime products are at most
23·11·29 = 7337, far below any overflow. -/
def computeWinProducts (combos : List (Int × Int × Int)) (sl : List Slot) : List Int :=
  combos.map fun c => primeAt sl c.1 * primeAt sl c.2.1 * primeAt sl c.2.2

/-- The precomputed list of winning-line products used by the game. -/
def winProducts : List Int :=
  computeWinProducts winCombos slots

/-- Two's-complement wraparound of a 32-bit signed `int`. -/
def wrap32 (n : Int) : Int :=
  (n + 2^31) % 2^32 - 2^31

/-- A token (`struct Token`), minus its sprite and continuous target
position, which are presentation state. -/
structure Token where
  slotIndex : Int
  nextSlotIndex : Int
  owner : Player
  selected : Bool
  moving : Bool
deriving DecidableEq, Repr

/-- Win test (`checkWin`): multiply the primes of every slot currently
recorded in `slotIndex` for the player's tokens (skipping the -1
sentinel), with `int` wraparound, and test divisibility by each
winning-line product.  The multiplication loop
(`product *= slots[t.slotIndex].prime`) runs on a C++ `int`, modelled
with 32-bit wraparound. -/
def playerProduct (tokens : List Token) (player : Player) : Int :=
  tokens.foldl
    (fun acc t =>
      if t.owner = player ∧ t.slotIndex ≠ -1 then wrap32 (acc * primeAt slots t.slotIndex)
      else acc) 1

/-- Divisibility loop of `checkWin`: the player's product is tested
against each precomputed line product with the C++ `%` (truncating
remainder, `Int.tmod`). -/
def checkWin (tokens : List Token) (player : Player) (winProducts : List Int) : Bool :=
  let product := playerProduct tokens player
  winProducts.any fun p => Int.tmod product p == 0

/-- The fixed adjacency table of `isAdjacent` (the static `adjacent`
array, one neighbour list per slot). -/
def adjacentLists : List (List Int) :=
  [[1, 3, 4],
   [0, 2, 4],
   [1, 5, 4],
   [0, 4, 6],
   [0, 1, 2, 3, 5, 6, 7, 8],
   [2, 4, 8],
   [3, 4, 7],
   [6, 4, 8],
   [4, 5, 7]]

/-- Adjacency test (`isAdjacent`): scan slot `a`'s neighbour list for
`b`.  Out-of-range `a` (undefined in C++) yields the empty list here. -/
def isAdjacent (a b : Int) : Bool :=
  if a < 0 then false
  else ((adjacentLists.get? a.toNat).getD []).contains b

/-- An axis-aligned pixel rectangle (`sf::FloatRect`); all rectangles in
the game have integer corners, and mouse coordinates are integers. -/
structure Rect where
  left : Int
  top : Int
  width : Int
  height : Int
deriving DecidableEq, Repr

/-- Point containment, `sf::FloatRect::contains`: min-inclusive,
max-exclusive on both axes (widths here are always positive). -/
def Rect.containsPt (r : Rect) (p : Int × Int) : Bool :=
  decide (r.left ≤ p.1 ∧ p.1 < r.left + r.width ∧ r.top ≤ p.2 ∧ p.2 < r.top + r.height)

/-- Bounds of the instructions button (global, never reassigned). -/
def instructionsButtonBounds : Rect := ⟨165, 560, 275, 100⟩

/-- Bounds of the about button (global, never reassigned). -/
def aboutButtonBounds : Rect := ⟨165, 680, 275, 100⟩

/-- Bounds of the exit button (global, never reassigned). -/
def exitButtonBounds : Rect := ⟨165, 650, 275, 100⟩

/-- The clickable 50×50 region of slot `i`
(`sf::FloatRect area(slots[i].position - sf::Vector2f(25,25), {50,50})`). -/
def slotArea (i : Nat) : Rect :=
  match slots.get? i with
  | some sl => ⟨sl.position.1 - 25, sl.position.2 - 25, 50, 50⟩
  | none => ⟨0, 0, 0, 0⟩

/-- Occupancy test of `getFreeSlotUnderMouse`'s inner loop: slot `i` is
occupied when some token sits on it (`t.slotIndex == i`) or is in
transit towards it (`t.moving && t.nextSlotIndex == i`). -/
def occupiedAt (tokens : List Token) (i : Int) : Bool :=
  tokens.any fun t => t.slotIndex == i || (t.moving && t.nextSlotIndex == i)

/-- The per-token occupancy claim used by `occupiedAt`: token `t`
occupies slot `i` when `i` is its current slot, or, while in transit,
its reserved destination. -/
def claimsSlot (t : Token) (i : Int) : Bool :=
  t.slotIndex == i || (t.moving && t.nextSlotIndex == i)

/-- Free-slot query (`getFreeSlotUnderMouse`): the first slot index
whose region contains the position and that is unoccupied, else -1. -/
def getFreeSlotUnderMouse (pos : Int × Int) (tokens : List Token) : Int :=
  match (List.range 9).find? (fun i => !occupiedAt tokens (Int.ofNat i) && (slotArea i).containsPt pos) with
  | some i => (i : Int)
  | none => -1

/-- The mutable game state threaded through `handleEvents` /
`updateTokens`: the token vector, whose turn it is, the phase, the
index of the selected token (the `Token* selected` pointer, as an
index), both placement counters, and the mutable global
`startButtonBounds`. -/
structure GameState where
  tokens : List Token
  turn : Player
  phase : GamePhase
  selected : Option Nat
  placedA : Nat
  placedB : Nat
  startBounds : Rect
deriving DecidableEq, Repr

/-- Game reset (`resetGame`): from Win the game returns to the Start
screen, otherwise directly to Placement; either way tokens are
cleared, the counters zeroed, the turn reset to player A and the
selection dropped. -/
def resetGame (s : GameState) : GameState :=
  if s.phase = GamePhase.Win then
    { s with phase := GamePhase.Start, startBounds := ⟨165, 440, 275, 100⟩,
             tokens := [], placedA := 0, placedB := 0,
             turn := Player.A, selected := none }
  else
    { s with phase := GamePhase.Placement, startBounds := ⟨340, 620, 240, 80⟩,
             tokens := [], placedA := 0, placedB := 0,
             turn := Player.A, selected := none }

/-- The token appended by an accepted placement: owned by the current
player, sitting at `slot`, unselected, not moving. -/
def placedToken (turn : Player) (slot : Int) : Token :=
  { slotIndex := slot, nextSlotIndex := -1, owner := turn,
    selected := false, moving := false }

/-- The Placement-phase click branch of `handleEvents` (lines 281-309):
if the clicked slot is free a token is created there; an immediate win
freezes the turn and the counters, otherwise the placer's counter is
incremented, the phase advances to Movement once both counters reach
3, and the turn alternates. -/
def placementClick (s : GameState) (pos : Int × Int) : GameState :=
  let slot := getFreeSlotUnderMouse pos s.tokens
  if slot ≠ -1 then
    let tokens' := s.tokens ++ [placedToken s.turn slot]
    if checkWin tokens' s.turn winProducts then
      { s with tokens := tokens', phase := GamePhase.Win,
               startBounds := ⟨165, 510, 275, 100⟩ }
    else
      let placedA' := if s.turn = Player.A then s.placedA + 1 else s.placedA
      let placedB' := if s.turn = Player.A then s.placedB else s.placedB + 1
      { s with tokens := tokens',
               placedA := placedA', placedB := placedB',
               phase := if placedA' = 3 ∧ placedB' = 3 then GamePhase.Movement else s.phase,
               turn := otherPlayer s.turn }
  else s

/-- The deselection part of the Movement-phase click branch (lines
312-320): `if (selected) selected->selected = false;`. -/
def deselectOld (s : GameState) : List Token :=
  match s.selected with
  | some j =>
    match s.tokens[j]? with
    | some tj => s.tokens.set j { tj with selected := false }
    | none => s.tokens
  | none => s.tokens

/-- Token `i` becomes the selected token (`t.selected = true;
selected = &t;`), after the deselection above. -/
def selectClick (s : GameState) (i : Nat) : GameState :=
  match (deselectOld s)[i]? with
  | some ti => { s with tokens := (deselectOld s).set i ({ ti with selected := true }),
                        selected := some i }
  | none => s

/-- The move part of the Movement-phase click branch (lines 322-331): a
click that hit none of the current player's tokens starts a slide of
the selected token when one is selected, it is not already moving, the
clicked slot is free, and it is adjacent to the token's current slot.
The token's `selected` flag is cleared but the `selected` pointer is
left in place; `slotIndex` keeps the origin until arrival
(`selected->moving = true; selected->nextSlotIndex = target;
selected->selected = false;`). -/
def slideState (s : GameState) (j : Nat) (tj : Token) (target : Int) : GameState :=
  let tj' := { tj with moving := true, nextSlotIndex := target, selected := false }
  { s with tokens := s.tokens.set j tj' }

/-- The move part of the Movement-phase click branch (lines 322-331): a
click that hit none of the current player's tokens starts a slide of
the selected token when one is selected, it is not already moving, the
clicked slot is free, and it is adjacent to the token's current slot. -/
def moveClick (s : GameState) (pos : Int × Int) : GameState :=
  match s.selected with
  | none => s
  | some j =>
    match s.tokens[j]? with
    | none => s
    | some tj =>
      if ¬tj.moving then
        let target := getFreeSlotUnderMouse pos s.tokens
        if target ≠ -1 ∧ isAdjacent tj.slotIndex target then
          slideState s j tj target
        else s
      else s

/-- The Movement-phase click branch of `handleEvents` (lines 310-332).
`hit` is the index of the first token owned by the current player
whose sprite contains the click, as resolved by the input layer
(`none` when the click landed on no such token). -/
def movementClick (s : GameState) (pos : Int × Int) (hit : Option Nat) : GameState :=
  match hit with
  | some i =>
    match s.tokens[i]? with
    | some ti => if ti.owner = s.turn then selectClick s i else s
    | none => s
  | none => moveClick s pos

/-- One left mouse click processed by `handleEvents` (lines 241-333),
with the same dispatch order as the source: navigation back to Start,
game start, the reset button, the Instructions/About buttons, the
Win-phase exit button (which closes the window and leaves the game
state untouched), then the Placement and Movement board handlers. -/
def handleClick (s : GameState) (pos : Int × Int) (hit : Option Nat) : GameState :=
  if (s.phase = GamePhase.Instructions ∨ s.phase = GamePhase.About)
      ∧ s.startBounds.containsPt pos then
    { s with phase := GamePhase.Start, startBounds := ⟨165, 440, 275, 100⟩ }
  else if s.phase = GamePhase.Start ∧ s.startBounds.containsPt pos then
    { s with phase := GamePhase.Placement, startBounds := ⟨340, 620, 240, 80⟩ }
  else if s.startBounds.containsPt pos then
    resetGame s
  else if s.phase = GamePhase.Start ∧ instructionsButtonBounds.containsPt pos then
    { s with phase := GamePhase.Instructions, startBounds := ⟨165, 665, 275, 100⟩ }
  else if s.phase = GamePhase.Start ∧ aboutButtonBounds.containsPt pos then
    { s with phase := GamePhase.About, startBounds := ⟨165, 665, 275, 100⟩ }
  else if s.phase = GamePhase.Win ∧ exitButtonBounds.containsPt pos then
    s
  else if s.phase = GamePhase.Placement then
    placementClick s pos
  else if s.phase = GamePhase.Movement then
    movementClick s pos hit
  else s

/-- Arrival of moving token `i`, the completion branch of
`updateTokens` (lines 353-367): the token snaps to its destination
(`slotIndex = nextSlotIndex`, transit fields cleared), the win test
runs for the token's owner and on success sets the phase to Win; in
either case the selection pointer is cleared and the turn alternates.
When the token exists and is not moving, or `i` is out of range,
nothing happens. -/
def arriveToken (s : GameState) (i : Nat) : GameState :=
  match s.tokens[i]? with
  | none => s
  | some t =>
    if t.moving then
      let t' := { t with slotIndex := t.nextSlotIndex, moving := false, nextSlotIndex := -1 }
      let tokens' := s.tokens.set i t'
      let s' :=
        if checkWin tokens' t.owner winProducts then
          { s with tokens := tokens', phase := GamePhase.Win,
                   startBounds := ⟨165, 510, 275, 100⟩ }
        else
          { s with tokens := tokens' }
      { s' with selected := none, turn := otherPlayer s.turn }
    else s

/-- An atomic observable event: one left mouse click (with the resolved
Movement-phase token hit), or the motion completion of token `i`. -/
inductive Ev where
  | click (pos : Int × Int) (hit : Option Nat)
  | arrive (i : Nat)

/-- One step of the game: dispatch a click through `handleClick` or a
motion completion through `arriveToken`. -/
def step (s : GameState) (e : Ev) : GameState :=
  match e with
  | Ev.click pos hit => handleClick s pos hit
  | Ev.arrive i => arriveToken s i

/-- The initial state of `main`: no tokens, player A to move, Start
phase, nothing selected, zero placements, start button at its Start
layout. -/
def initState : GameState :=
  { tokens := [], turn := Player.A, phase := GamePhase.Start,
    selected := none, placedA := 0, placedB := 0,
    startBounds := ⟨165, 440, 275, 100⟩ }

/-- Run a list of events from the initial state. -/
def run (evs : List Ev) : GameState :=
  evs.foldl step initState

/-- States reachable from the initial state by accepted intents and
motion completions. -/
inductive Reachable : GameState → Prop where
  | init : Reachable initState
  | step {s : GameState} (e : Ev) : Reachable s → Reachable (step s e)

/-- Slot `j` is occupied by one of `player`'s tokens (its recorded
`slotIndex` equals `j`). -/
def occupies (tokens : List Token) (player : Player) (j : Int) : Prop :=
  ∃ t ∈ tokens, t.owner = player ∧ t.slotIndex = j

/-- The list of slots currently recorded for `player`'s placed tokens,
in token order: exactly the slots whose primes `checkWin` multiplies. -/
def occupiedSlots (tokens : List Token) (player : Player) : List Int :=
  (tokens.filter fun t => decide (t.owner = player ∧ t.slotIndex ≠ -1)).map Token.slotIndex

instance (tokens : List Token) (player : Player) (j : Int) : Decidable (occupies tokens player j) := by
  unfold occupies
  infer_instance

/-- The product loop of `checkWin`, re-indexed over the occupied-slot
list (still with 32-bit wraparound at every multiplication). -/
def prodSlots (l : List Int) : Int :=
  l.foldl (fun acc j => wrap32 (acc * primeAt slots j)) 1

/-- The exact (unbounded) product of the primes of a slot list. -/
def pureProdSlots (l : List Int) : Int :=
  (l.map (primeAt slots)).prod

/-- Number of tokens currently in transit. -/
def movingCount (s : GameState) : Nat :=
  s.tokens.countP fun t => t.moving

/-- Slots `a` and `b` are neighbours on the same grid line: same row and
adjacent columns, or same column and adjacent rows. -/
def gridNeighbor (a b : Fin 9) : Prop :=
  (a.val / 3 = b.val / 3 ∧ (a.val % 3 + 1 = b.val % 3 ∨ b.val % 3 + 1 = a.val % 3)) ∨
  (a.val % 3 = b.val % 3 ∧ (a.val / 3 + 1 = b.val / 3 ∨ b.val / 3 + 1 = a.val / 3))

instance (a b : Fin 9) : Decidable (gridNeighbor a b) := by
  unfold gridNeighbor
  infer_instance

/-- A Movement-phase move intent at `pos` is accepted with target slot
`S`: a token is selected, it is not moving, the free-slot query at
`pos` yields `S`, and `S` is adjacent to the token's current slot. -/
def moveAccepted (s : GameState) (pos : Int × Int) (S : Int) : Prop :=
  ∃ j tj, s.selected = some j ∧ s.tokens[j]? = some tj ∧ tj.moving = false ∧
    getFreeSlotUnderMouse pos s.tokens = S ∧ S ≠ -1 ∧ isAdjacent tj.slotIndex S = true

/-- Going from state `s` to state `s'`, the selected token began a
slide towards slot `S`: it was stationary in `s` and is in transit
towards `S` in `s'`. -/
def beginsSlideTo (s s' : GameState) (S : Int) : Prop :=
  ∃ j tj tj', s.selected = some j ∧ s.tokens[j]? = some tj ∧ s'.tokens[j]? = some tj' ∧
    tj.moving = false ∧ tj'.moving = true ∧ tj'.nextSlotIndex = S

/-- One token of each player, on every one of the nine slots: the input
on which the prime product of `checkWin` overflows a 32-bit `int`. -/
def fullBoardTokens : List Token :=
  (List.range 9).map fun i => placedToken Player.A (Int.ofNat i)

/-- A Movement-phase position with player A's tokens on slots 0 and 1
and a third A token sliding from slot 3 to slot 2; its arrival
completes the line 0-1-2. -/
def c2state : GameState :=
  { tokens := [placedToken Player.A 0, placedToken Player.A 1,
               { slotIndex := 3, nextSlotIndex := 2, owner := Player.A,
                 selected := false, moving := true }],
    turn := Player.A, phase := GamePhase.Movement, selected := none,
    placedA := 3, placedB := 3, startBounds := ⟨340, 620, 240, 80⟩ }

/-- An event trace from the initial state: start the game, place
A 0, B 1, A 5, B 2, A 7, B 3 (no line is completed, so the phase
advances to Movement with A to move), then player A selects the token
on slot 7 and slides it to slot 8 and, while it is still in transit,
selects the token on slot 5 and slides it to slot 4. -/
def c9events : List Ev :=
  [Ev.click (200, 480) none,
   Ev.click (50, 50) none,
   Ev.click (300, 50) none,
   Ev.click (550, 300) none,
   Ev.click (550, 50) none,
   Ev.click (300, 550) none,
   Ev.click (50, 300) none,
   Ev.click (300, 550) (some 4),
   Ev.click (550, 550) none,
   Ev.click (550, 300) (some 2),
   Ev.click (300, 300) none]

/-- A Movement-phase position with player A's token on slot 5 selected;
clicking the free centre slot 4 is an accepted move. -/
def w4state : GameState :=
  { tokens := [{ slotIndex := 5, nextSlotIndex := -1, owner := Player.A,
                 selected := true, moving := false }],
    turn := Player.A, phase := GamePhase.Movement, selected := some 0,
    placedA := 3, placedB := 3, startBounds := ⟨340, 620, 240, 80⟩ }

/-- A Placement-phase position with a token already on slot 0. -/
def w5state : GameState :=
  { tokens := [placedToken Player.A 0],
    turn := Player.B, phase := GamePhase.Placement, selected := none,
    placedA := 1, placedB := 0, startBounds := ⟨340, 620, 240, 80⟩ }

/-- A Win-phase position (player A has the line 0-1-2). -/
def w8state : GameState :=
  { tokens := [placedToken Player.A 0, placedToken Player.A 1, placedToken Player.A 2,
               placedToken Player.B 3, placedToken Player.B 5],
    turn := Player.A, phase := GamePhase.Win, selected := none,
    placedA := 2, placedB := 2, startBounds := ⟨165, 510, 275, 100⟩ }

/-- Player A's tokens on slots 1 and 2, plus an A token in transit from
slot 0 (origin) to slot 4 (destination). -/
def c3tokens : List Token :=
  [placedToken Player.A 1, placedToken Player.A 2,
   { slotIndex := 0, nextSlotIndex := 4, owner := Player.A,
     selected := false, moving := true }]

/-- A Placement-phase position where player A, to move, has tokens on
slots 0 and 1: placing on slot 2 completes a line. -/
def w2state : GameState :=
  { tokens := [placedToken Player.A 0, placedToken Player.A 1],
    turn := Player.A, phase := GamePhase.Placement, selected := none,
    placedA := 2, placedB := 0, startBounds := ⟨340, 620, 240, 80⟩ }

/-- Slot exclusivity: at most one token occupies any slot, counting an
in-transit token at both its origin and its reserved destination. -/
def slotInv (ts : List Token) : Prop :=
  ∀ i : Int, ts.countP (fun t => claimsSlot t i) ≤ 1

/-! ## General list lemmas -/

/-- Replacing element `i` changes `countP` by the difference of the
predicate at the old and the new element. -/
theorem countP_set_add {α : Type} (p : α → Bool) (l : List α) (i : Nat) (a : α)
    (h : i < l.length) :
    (l.set i a).countP p + (if p l[i] then 1 else 0) =
      l.countP p + (if p a then 1 else 0) := by
  induction l generalizing i with
  | nil => simp at h
  | cons x xs ih =>
    cases i with
    | zero =>
      simp only [List.set, List.countP_cons, List.getElem_cons_zero]
      omega
    | succ n =>
      have hn : n < xs.length := by simpa using h
      have := ih n hn
      simp only [List.set, List.countP_cons, List.getElem_cons_succ]
      omega

/-- A list whose elements never satisfy a predicate pairwise-jointly
with another satisfying element has `countP` at most one. -/
theorem countP_le_one_of_pairwise {α : Type} (p : α → Bool) (l : List α)
    (h : ∀ i j : Nat, ∀ hi : i < l.length, ∀ hj : j < l.length,
      i ≠ j → p l[i] = true → p l[j] = true → False) :
    l.countP p ≤ 1 := by
  induction l with
  | nil => simp
  | cons x xs ih =>
    by_cases hx : p x = true
    · have hz : xs.countP p = 0 := by
        rw [List.countP_eq_zero]
        intro a ha
        obtain ⟨k, hk, hke⟩ := List.getElem_of_mem ha
        intro hpa
        exact h 0 (k + 1) (by simp) (by simpa using hk) (by omega)
          (by simpa using hx) (by simpa [hke] using hpa)
      simp [List.countP_cons, hx, hz]
    · have := ih (fun i j hi hj hne hpi hpj =>
        h (i + 1) (j + 1) (by simpa using hi) (by simpa using hj) (by omega)
          (by simpa using hpi) (by simpa using hpj))
      simp only [List.countP_cons, hx]
      simpa using this

end TMM

namespace TMM

/-! ## C7: the adjacency table -/

/-- C7: the adjacency relation is symmetric on slot indices 0..8; the
centre slot 4 is adjacent to the 8 other slots; and every non-centre
slot is adjacent to exactly 3 slots, namely the centre and its
same-line grid neighbours. -/
theorem C7_adjacency_table :
    (∀ a b : Fin 9, isAdjacent (a.val : Int) (b.val : Int) = isAdjacent (b.val : Int) (a.val : Int)) ∧
    (∀ b : Fin 9, b ≠ 4 → isAdjacent 4 (b.val : Int) = true) ∧
    (∀ a : Fin 9, a ≠ 4 →
      ((List.range 9).filter (fun b => isAdjacent (a.val : Int) (Int.ofNat b))).length = 3 ∧
      isAdjacent (a.val : Int) 4 = true ∧
      (∀ b : Fin 9, b ≠ 4 → (isAdjacent (a.val : Int) (b.val : Int) = true ↔ gridNeighbor a b))) := by
  decide

theorem C7_witness :
    isAdjacent 4 0 = true ∧
    ((List.range 9).filter (fun b => isAdjacent ((0 : Fin 9).val : Int) (Int.ofNat b))).length = 3 :=
  ⟨C7_adjacency_table.2.1 0 (by decide), (C7_adjacency_table.2.2 0 (by decide)).1⟩

/-! ## C10: reset -/

/-- C10: after a reset in any phase the token collection is empty, both
placement counts are zero, the turn is player A and no token is
selected; the phase becomes Start when resetting out of Win and
Placement otherwise. -/
theorem C10_reset (s : GameState) :
    (resetGame s).tokens = [] ∧ (resetGame s).placedA = 0 ∧ (resetGame s).placedB = 0 ∧
    (resetGame s).turn = Player.A ∧ (resetGame s).selected = none ∧
    (resetGame s).phase =
      (if s.phase = GamePhase.Win then GamePhase.Start else GamePhase.Placement) := by
  unfold resetGame
  by_cases h : s.phase = GamePhase.Win <;> simp [h]

/-! ## C3: what an in-transit token contributes to the win test -/

/-- C3 (amended): `checkWin` reads only each token's owner and its
recorded `slotIndex`.  An in-transit token therefore still contributes
its origin slot (where `slotIndex` stays until arrival), and its
pending destination never contributes. -/
theorem C3_transit_contribution (tokens : List Token) (player : Player) (wp : List Int) :
    checkWin tokens player wp =
      checkWin (tokens.map fun t => { t with moving := false, nextSlotIndex := -1 }) player wp := by
  unfold checkWin playerProduct
  rw [List.foldl_map]

/-- C3 counterexample: with player A on slots 1 and 2 and an A token in
transit from slot 0 to slot 4, `checkWin` already reports a win - the
in-transit token contributes its origin slot 0, completing the line
0-1-2 - whereas dropping the in-transit token yields no win. -/
theorem C3_counterexample :
    checkWin c3tokens Player.A winProducts = true ∧
    checkWin (c3tokens.filter fun t => !t.moving) Player.A winProducts = false := by
  constructor <;> rfl

/-! ## Slot regions are pairwise disjoint -/

/-- No pixel position lies in the clickable regions of two different
slots: the 50×50 regions are centred 250 pixels apart. -/
theorem slotArea_disjoint (p : Int × Int) (i j : Nat) (hi : i < 9) (hj : j < 9) (hne : i ≠ j)
    (h1 : (slotArea i).containsPt p = true) (h2 : (slotArea j).containsPt p = true) : False := by
  have e0 : slotArea 0 = ⟨25, 25, 50, 50⟩ := rfl
  have e1 : slotArea 1 = ⟨275, 25, 50, 50⟩ := rfl
  have e2 : slotArea 2 = ⟨525, 25, 50, 50⟩ := rfl
  have e3 : slotArea 3 = ⟨25, 275, 50, 50⟩ := rfl
  have e4 : slotArea 4 = ⟨275, 275, 50, 50⟩ := rfl
  have e5 : slotArea 5 = ⟨525, 275, 50, 50⟩ := rfl
  have e6 : slotArea 6 = ⟨25, 525, 50, 50⟩ := rfl
  have e7 : slotArea 7 = ⟨275, 525, 50, 50⟩ := rfl
  have e8 : slotArea 8 = ⟨525, 525, 50, 50⟩ := rfl
  interval_cases i <;> interval_cases j <;>
    simp only [e0, e1, e2, e3, e4, e5, e6, e7, e8, Rect.containsPt, decide_eq_true_eq] at h1 h2 <;>
    first
    | exact hne rfl
    | omega

/-- A click over an occupied or reserved slot makes the free-slot query
fail: it returns -1. -/
theorem getFreeSlot_of_occupied (tokens : List Token) (pos : Int × Int) (S : Nat) (hS : S < 9)
    (hover : (slotArea S).containsPt pos = true)
    (hocc : occupiedAt tokens (Int.ofNat S) = true) :
    getFreeSlotUnderMouse pos tokens = -1 := by
  unfold getFreeSlotUnderMouse
  have hnone : (List.range 9).find?
      (fun i => !occupiedAt tokens (Int.ofNat i) && (slotArea i).containsPt pos) = none := by
    rw [List.find?_eq_none]
    intro i hi
    rw [List.mem_range] at hi
    by_cases hiS : i = S
    · subst hiS
      rw [Int.ofNat_eq_coe] at hocc
      simp [hocc]
    · have hc : (slotArea i).containsPt pos = false := by
        cases hcc : (slotArea i).containsPt pos
        · rfl
        · exact absurd (slotArea_disjoint pos i S hi hS hiS hcc hover) not_false
      simp [hc]
  rw [hnone]

/-! ## C5: placement over an occupied or reserved slot is ignored -/

/-- C5: in the Placement phase, a click over a slot that is occupied or
reserved by an in-transit token (and not on the reset button) leaves
the state exactly as it was: no token is created and phase, turn,
counters and tokens are unchanged. -/
theorem C5_placement_rejected (s : GameState) (pos : Int × Int) (hit : Option Nat) (S : Nat)
    (hS : S < 9)
    (hover : (slotArea S).containsPt pos = true)
    (hocc : occupiedAt s.tokens (Int.ofNat S) = true)
    (hphase : s.phase = GamePhase.Placement)
    (hb : s.startBounds.containsPt pos = false) :
    handleClick s pos hit = s := by
  have hfree := getFreeSlot_of_occupied s.tokens pos S hS hover hocc
  unfold handleClick
  rw [hphase]
  simp [hb, placementClick, hfree]

theorem C5_witness : handleClick w5state (50, 50) none = w5state :=
  C5_placement_rejected w5state (50, 50) none 0 (by decide) (by decide) (by decide) rfl (by decide)

/-! ## C8: the Win phase freezes everything except reset -/

/-- C8: once the phase is Win, a click either hits the reset button
(the one Reset intent, handled by `resetGame`) or leaves the game
state completely unchanged; no placement, selection or movement intent
has any effect. -/
theorem C8_win_freeze (s : GameState) (pos : Int × Int) (hit : Option Nat)
    (hwin : s.phase = GamePhase.Win) :
    handleClick s pos hit = if s.startBounds.containsPt pos then resetGame s else s := by
  unfold handleClick
  rw [hwin]
  by_cases hb : s.startBounds.containsPt pos = true
  · simp [hb]
  · rw [Bool.not_eq_true] at hb
    by_cases he : exitButtonBounds.containsPt pos = true
    · simp [hb, he]
    · rw [Bool.not_eq_true] at he
      simp [hb, he]

theorem C8_witness : handleClick w8state (10, 10) none = w8state := by
  rw [C8_win_freeze w8state (10, 10) none rfl]
  decide

/-! ## C4: acceptance conditions of a move intent -/

/-- What the free-slot query reports when it succeeds: a slot index
below 9 whose region contains the position and which is unoccupied. -/
theorem getFreeSlot_spec (pos : Int × Int) (tokens : List Token) (S : Int)
    (h : getFreeSlotUnderMouse pos tokens = S) (hne : S ≠ -1) :
    ∃ n : Nat, n < 9 ∧ S = Int.ofNat n ∧ occupiedAt tokens (Int.ofNat n) = false ∧
      (slotArea n).containsPt pos = true := by
  unfold getFreeSlotUnderMouse at h
  cases hf : (List.range 9).find?
      (fun i => !occupiedAt tokens (Int.ofNat i) && (slotArea i).containsPt pos) with
  | none =>
    rw [hf] at h
    exact absurd h.symm hne
  | some n =>
    rw [hf] at h
    have hp := List.find?_some hf
    have hm := List.mem_of_find?_eq_some hf
    rw [List.mem_range] at hm
    rw [Bool.and_eq_true, Bool.not_eq_true'] at hp
    exact ⟨n, hm, h.symm, hp.1, hp.2⟩

/-- C4: in the Movement phase, a click that lands on none of the
current player's tokens (and not on the reset button) begins a slide
of the selected token towards `S` exactly when a token is selected, it
is not already moving, the free-slot query at the click yields `S`,
and `S` is adjacent to the token's slot; and whenever no slot is
accepted the state - the active selection included - is unchanged. -/
theorem C4_move_acceptance (s : GameState) (pos : Int × Int)
    (hphase : s.phase = GamePhase.Movement)
    (hb : s.startBounds.containsPt pos = false) :
    (∀ S : Int, beginsSlideTo s (handleClick s pos none) S ↔ moveAccepted s pos S) ∧
    ((∀ S : Int, ¬ moveAccepted s pos S) → handleClick s pos none = s) := by
  have hred : handleClick s pos none = moveClick s pos := by
    unfold handleClick
    rw [hphase]
    simp [hb, movementClick]
  rw [hred]
  have hnoslide : ∀ S : Int, ¬ beginsSlideTo s s S := by
    intro S hbs
    obtain ⟨j, tj, tj', hsel, hget, hget', hmov, hmov', -⟩ := hbs
    rw [hget] at hget'
    cases hget'
    rw [hmov] at hmov'
    cases hmov'
  cases hsel : s.selected with
  | none =>
    have hmc : moveClick s pos = s := by
      unfold moveClick
      rw [hsel]
    rw [hmc]
    refine ⟨fun S => ⟨fun hbs => absurd hbs (hnoslide S), fun hacc => ?_⟩, fun _ => rfl⟩
    obtain ⟨j, tj, hsel', -⟩ := hacc
    rw [hsel] at hsel'
    cases hsel'
  | some j =>
    cases hget : s.tokens[j]? with
    | none =>
      have hmc : moveClick s pos = s := by
        unfold moveClick
        simp [hsel, hget]
      rw [hmc]
      refine ⟨fun S => ⟨fun hbs => absurd hbs (hnoslide S), fun hacc => ?_⟩, fun _ => rfl⟩
      obtain ⟨j', tj, hsel', hget', -⟩ := hacc
      rw [hsel] at hsel'
      cases hsel'
      rw [hget] at hget'
      cases hget'
    | some tj =>
      have hlen : j < s.tokens.length := by
        exact (List.getElem?_eq_some_iff.mp hget).1
      by_cases hmov : tj.moving = true
      · have hmc : moveClick s pos = s := by
          unfold moveClick
          simp [hsel, hget, hmov]
        rw [hmc]
        refine ⟨fun S => ⟨fun hbs => absurd hbs (hnoslide S), fun hacc => ?_⟩, fun _ => rfl⟩
        obtain ⟨j', tj', hsel', hget', hmov', -⟩ := hacc
        rw [hsel] at hsel'
        cases hsel'
        rw [hget] at hget'
        cases hget'
        rw [hmov'] at hmov
        exact Bool.noConfusion hmov
      · have hmovf : tj.moving = false := by
          cases hm : tj.moving
          · rfl
          · exact absurd hm hmov
        by_cases hcond : getFreeSlotUnderMouse pos s.tokens ≠ -1 ∧
            isAdjacent tj.slotIndex (getFreeSlotUnderMouse pos s.tokens) = true
        · have hmc : moveClick s pos = slideState s j tj (getFreeSlotUnderMouse pos s.tokens) := by
            unfold moveClick
            simp only [hsel, hget, hmovf, Bool.false_eq_true, not_false_eq_true, if_true]
            rw [if_pos hcond]
          have hget'j : (slideState s j tj (getFreeSlotUnderMouse pos s.tokens)).tokens[j]? =
              some ({ tj with moving := true,
                              nextSlotIndex := getFreeSlotUnderMouse pos s.tokens,
                              selected := false }) := by
            unfold slideState
            exact List.getElem?_set_self (by simpa using hlen)
          rw [hmc]
          constructor
          · intro S
            constructor
            · intro hbs
              obtain ⟨j', tj0, tj', hsel', hget0, hget', -, -, hnext⟩ := hbs
              rw [hsel] at hsel'
              cases hsel'
              rw [hget] at hget0
              cases hget0
              rw [hget'j] at hget'
              cases hget'
              have htS : getFreeSlotUnderMouse pos s.tokens = S := hnext
              exact ⟨j, tj, hsel, hget, hmovf, htS, htS ▸ hcond.1, htS ▸ hcond.2⟩
            · intro hacc
              obtain ⟨j', tj0, hsel', hget0, hmov0, hfree, hSne, hadj⟩ := hacc
              rw [hsel] at hsel'
              cases hsel'
              rw [hget] at hget0
              cases hget0
              exact ⟨j, tj, _, hsel, hget, hget'j, hmovf, rfl, hfree⟩
          · intro hnone
            exact absurd ⟨j, tj, hsel, hget, hmovf, rfl, hcond.1, hcond.2⟩
              (hnone (getFreeSlotUnderMouse pos s.tokens))
        · have hmc : moveClick s pos = s := by
            unfold moveClick
            simp only [hsel, hget, hmovf, Bool.false_eq_true, not_false_eq_true, if_true]
            rw [if_neg hcond]
          rw [hmc]
          refine ⟨fun S => ⟨fun hbs => absurd hbs (hnoslide S), fun hacc => ?_⟩, fun _ => rfl⟩
          obtain ⟨j', tj0, hsel', hget0, hmov0, hfree, hSne, hadj⟩ := hacc
          rw [hsel] at hsel'
          cases hsel'
          rw [hget] at hget0
          cases hget0
          exact (hcond ⟨hfree ▸ hSne, hfree ▸ hadj⟩).elim

theorem C4_witness : beginsSlideTo w4state (handleClick w4state (300, 300) none) 4 :=
  ((C4_move_acceptance w4state (300, 300) rfl (by decide)).1 4).mpr
    ⟨0, { slotIndex := 5, nextSlotIndex := -1, owner := Player.A,
          selected := true, moving := false },
     rfl, rfl, rfl, by decide, by decide, by decide⟩

/-! ## C2: turn alternation -/

/-- C2 (amended): the turn alternates after every accepted placement
and every completed move that does not produce a win, and it does not
alternate on a placement win; but on a completed move the turn
variable switches even when the arrival produces a win (the phase is
then Win, so the switched value no longer affects play and reset
returns the turn to player A). -/
theorem C2_turn_alternation :
    (∀ (s : GameState) (pos : Int × Int),
      getFreeSlotUnderMouse pos s.tokens ≠ -1 →
      (checkWin (s.tokens ++ [placedToken s.turn (getFreeSlotUnderMouse pos s.tokens)])
          s.turn winProducts = true →
        (placementClick s pos).turn = s.turn ∧ (placementClick s pos).phase = GamePhase.Win) ∧
      (checkWin (s.tokens ++ [placedToken s.turn (getFreeSlotUnderMouse pos s.tokens)])
          s.turn winProducts = false →
        (placementClick s pos).turn = otherPlayer s.turn)) ∧
    (∀ (s : GameState) (i : Nat) (t : Token),
      s.tokens[i]? = some t → t.moving = true →
      (arriveToken s i).turn = otherPlayer s.turn) := by
  constructor
  · intro s pos hfree
    unfold placementClick
    rw [if_pos hfree]
    constructor
    · intro hw
      simp [hw]
    · intro hw
      simp [hw]
  · intro s i t hget hmov
    unfold arriveToken
    simp only [hget, hmov, if_true]

/-- C2 counterexample: in `c2state` the arrival of the sliding token
completes the line 0-1-2 and the phase becomes Win, yet the turn
variable still switches from A to B - refuting that the turn never
switches on a win. -/
theorem C2_counterexample :
    checkWin ((arriveToken c2state 2).tokens) Player.A winProducts = true ∧
    (arriveToken c2state 2).phase = GamePhase.Win ∧
    c2state.turn = Player.A ∧ (arriveToken c2state 2).turn = Player.B :=
  ⟨rfl, rfl, rfl, rfl⟩

theorem C2_witness :
    ((placementClick w2state (550, 50)).turn = Player.A ∧
      (placementClick w2state (550, 50)).phase = GamePhase.Win) ∧
    (arriveToken c2state 2).turn = otherPlayer Player.A :=
  ⟨(C2_turn_alternation.1 w2state (550, 50) (by decide)).1 (by decide),
   C2_turn_alternation.2 c2state 2
     { slotIndex := 3, nextSlotIndex := 2, owner := Player.A, selected := false, moving := true }
     rfl rfl⟩


/-! ## C6 and C9: transition lemmas for the two token invariants -/

/-- Out-of-range or not, replacing one list element raises `countP` by
at most one. -/
theorem countP_set_le_succ {α : Type} (p : α → Bool) (l : List α) (j : Nat) (a : α) :
    (l.set j a).countP p ≤ l.countP p + 1 := by
  by_cases hlen : j < l.length
  · have hadd := countP_set_add p l j a hlen
    by_cases h1 : p l[j] = true <;> by_cases h2 : p a = true <;>
      simp [h1, h2] at hadd <;> omega
  · rw [List.set_eq_of_length_le (by omega)]
    omega

/-- Replacing one list element by one with the same predicate value
keeps `countP` unchanged. -/
theorem countP_set_eq_of_same {α : Type} (p : α → Bool) (l : List α) (j : Nat) (a b : α)
    (hget : l[j]? = some b) (hp : p a = p b) :
    (l.set j a).countP p = l.countP p := by
  obtain ⟨hlen, hk⟩ := List.getElem?_eq_some_iff.mp hget
  have hadd := countP_set_add p l j a hlen
  rw [hk, hp] at hadd
  omega

/-- When `occupiedAt` reports slot `v` free, no token claims it. -/
theorem claims_eq_false_of_unoccupied (ts : List Token) (v : Int)
    (hocc : occupiedAt ts v = false) : ∀ t ∈ ts, claimsSlot t v = false := by
  intro t ht
  have h2 : ¬ ((fun t : Token => t.slotIndex == v || (t.moving && t.nextSlotIndex == v)) t = true) :=
    List.any_eq_false.mp hocc t ht
  cases hc : claimsSlot t v
  · rfl
  · exact absurd hc h2

/-- When `occupiedAt` reports slot `v` free, no token counts for it. -/
theorem countP_claims_zero (ts : List Token) (v : Int) (hocc : occupiedAt ts v = false) :
    ts.countP (fun t => claimsSlot t v) = 0 := by
  rw [List.countP_eq_zero]
  intro t ht
  rw [claims_eq_false_of_unoccupied ts v hocc t ht]
  exact Bool.false_ne_true

/-- Replacing a token by one with identical claims preserves the slot
invariant. -/
theorem slotInv_set_same (ts : List Token) (j : Nat) (tj t' : Token)
    (hget : ts[j]? = some tj)
    (hsame : ∀ i : Int, claimsSlot t' i = claimsSlot tj i)
    (h : slotInv ts) : slotInv (ts.set j t') := by
  intro i
  have heq := countP_set_eq_of_same (fun t => claimsSlot t i) ts j t' tj hget (hsame i)
  rw [heq]
  exact h i

/-- Claims of a token that starts sliding: its old claims plus the
reserved target. -/
theorem claimsSlot_slide (tj : Token) (target i : Int) (hmov : tj.moving = false) :
    claimsSlot ({ tj with moving := true, nextSlotIndex := target, selected := false }) i =
      (claimsSlot tj i || (target == i)) := by
  simp [claimsSlot, hmov]

/-- A claim of an arrived token was already claimed by it in transit. -/
theorem claimsSlot_arrive (t : Token) (i : Int) (hmov : t.moving = true)
    (hc : claimsSlot ({ t with slotIndex := t.nextSlotIndex, moving := false, nextSlotIndex := -1 }) i
      = true) :
    claimsSlot t i = true := by
  simp [claimsSlot] at hc ⊢
  exact Or.inr ⟨hmov, hc⟩

/-- Starting a slide towards a free slot preserves the slot invariant. -/
theorem slotInv_beginMove (ts : List Token) (j : Nat) (tj : Token) (target : Int)
    (hget : ts[j]? = some tj) (hmov : tj.moving = false)
    (hocc : occupiedAt ts target = false) (h : slotInv ts) :
    slotInv (ts.set j ({ tj with moving := true, nextSlotIndex := target, selected := false })) := by
  intro i
  obtain ⟨hlen, hk⟩ := List.getElem?_eq_some_iff.mp hget
  have hadd := countP_set_add (fun t => claimsSlot t i) ts j
    ({ tj with moving := true, nextSlotIndex := target, selected := false }) hlen
  rw [hk, claimsSlot_slide tj target i hmov] at hadd
  by_cases hi : target = i
  · have h0 : ts.countP (fun t => claimsSlot t i) = 0 := by
      rw [← hi]
      exact countP_claims_zero ts target hocc
    have htj : claimsSlot tj i = false := by
      rw [← hi]
      exact claims_eq_false_of_unoccupied ts target hocc tj (List.getElem?_mem hget)
    have hbeq : (target == i) = true := by
      rw [hi]
      exact beq_self_eq_true i
    rw [h0, htj, hbeq] at hadd
    simp at hadd
    omega
  · have hbeq : (target == i) = false := beq_eq_false_iff_ne.mpr hi
    rw [hbeq, Bool.or_false] at hadd
    have hv := h i
    by_cases hc : claimsSlot tj i = true <;> simp [hc] at hadd <;> omega

/-- `selectClick` only toggles selection flags: the slot invariant is
preserved. -/
theorem slotInv_deselectOld (s : GameState) (h : slotInv s.tokens) :
    slotInv (deselectOld s) := by
  cases hsel : s.selected with
  | none =>
    have heq : deselectOld s = s.tokens := by
      unfold deselectOld
      rw [hsel]
    rw [heq]
    exact h
  | some j =>
    cases hget : s.tokens[j]? with
    | none =>
      have heq : deselectOld s = s.tokens := by
        unfold deselectOld
        simp [hsel, hget]
      rw [heq]
      exact h
    | some tj =>
      have heq : deselectOld s = s.tokens.set j ({ tj with selected := false }) := by
        unfold deselectOld
        simp [hsel, hget]
      rw [heq]
      exact slotInv_set_same s.tokens j tj _ hget (fun v => rfl) h

theorem slotInv_selectClick (s : GameState) (i : Nat) (h : slotInv s.tokens) :
    slotInv (selectClick s i).tokens := by
  have hd := slotInv_deselectOld s h
  unfold selectClick
  cases hget : (deselectOld s)[i]? with
  | none => exact h
  | some ti => exact slotInv_set_same (deselectOld s) i ti _ hget (fun v => rfl) hd

/-- Case analysis of `moveClick`: it either leaves the state unchanged
or starts a slide of the selected, stationary token towards the free
slot under the mouse. -/
theorem moveClick_cases (s : GameState) (pos : Int × Int) :
    moveClick s pos = s ∨
    ∃ j tj, s.selected = some j ∧ s.tokens[j]? = some tj ∧ tj.moving = false ∧
      getFreeSlotUnderMouse pos s.tokens ≠ -1 ∧
      moveClick s pos = slideState s j tj (getFreeSlotUnderMouse pos s.tokens) := by
  cases hsel : s.selected with
  | none =>
    refine Or.inl ?_
    unfold moveClick
    rw [hsel]
  | some j =>
    cases hget : s.tokens[j]? with
    | none =>
      refine Or.inl ?_
      unfold moveClick
      simp [hsel, hget]
    | some tj =>
      by_cases hmov : tj.moving = true
      · refine Or.inl ?_
        unfold moveClick
        simp [hsel, hget, hmov]
      · have hmovf : tj.moving = false := by
          cases hm : tj.moving
          · rfl
          · exact absurd hm hmov
        by_cases hcond : getFreeSlotUnderMouse pos s.tokens ≠ -1 ∧
            isAdjacent tj.slotIndex (getFreeSlotUnderMouse pos s.tokens) = true
        · refine Or.inr ⟨j, tj, rfl, hget, hmovf, hcond.1, ?_⟩
          unfold moveClick
          simp only [hsel, hget, hmovf, Bool.false_eq_true, not_false_eq_true, if_true]
          rw [if_pos hcond]
        · refine Or.inl ?_
          unfold moveClick
          simp only [hsel, hget, hmovf, Bool.false_eq_true, not_false_eq_true, if_true]
          rw [if_neg hcond]

/-- `moveClick` preserves the slot invariant. -/
theorem slotInv_moveClick (s : GameState) (pos : Int × Int) (h : slotInv s.tokens) :
    slotInv (moveClick s pos).tokens := by
  rcases moveClick_cases s pos with hmc | ⟨j, tj, hsel, hget, hmov, hfree, hmc⟩
  · rw [hmc]
    exact h
  · rw [hmc]
    obtain ⟨n, hn9, hSn, hocc, -⟩ := getFreeSlot_spec pos s.tokens _ rfl hfree
    unfold slideState
    exact slotInv_beginMove s.tokens j tj _ hget hmov (hSn ▸ hocc) h

/-- `movementClick` preserves the slot invariant. -/
theorem slotInv_movementClick (s : GameState) (pos : Int × Int) (hit : Option Nat)
    (h : slotInv s.tokens) : slotInv (movementClick s pos hit).tokens := by
  cases hit with
  | none => exact slotInv_moveClick s pos h
  | some i =>
    cases hget : s.tokens[i]? with
    | none =>
      have heq : movementClick s pos (some i) = s := by
        unfold movementClick
        simp [hget]
      rw [heq]
      exact h
    | some ti =>
      by_cases ho : ti.owner = s.turn
      · have heq : movementClick s pos (some i) = selectClick s i := by
          unfold movementClick
          simp [hget, ho]
        rw [heq]
        exact slotInv_selectClick s i h
      · have heq : movementClick s pos (some i) = s := by
          unfold movementClick
          simp [hget, ho]
        rw [heq]
        exact h

/-- `placementClick` preserves the slot invariant: the new token sits
on a slot the free-slot query certified unoccupied. -/
theorem slotInv_placementClick (s : GameState) (pos : Int × Int) (h : slotInv s.tokens) :
    slotInv (placementClick s pos).tokens := by
  unfold placementClick
  by_cases hfree : getFreeSlotUnderMouse pos s.tokens ≠ -1
  · obtain ⟨n, hn9, hSn, hocc, -⟩ := getFreeSlot_spec pos s.tokens _ rfl hfree
    have key : slotInv (s.tokens ++ [placedToken s.turn (getFreeSlotUnderMouse pos s.tokens)]) := by
      intro v
      rw [List.countP_append]
      by_cases hv : claimsSlot (placedToken s.turn (getFreeSlotUnderMouse pos s.tokens)) v = true
      · have hveq : getFreeSlotUnderMouse pos s.tokens = v := by
          have hb : (getFreeSlotUnderMouse pos s.tokens == v) = true := by
            simpa [claimsSlot, placedToken] using hv
          exact beq_iff_eq.mp hb
        have h0 : s.tokens.countP (fun t => claimsSlot t v) = 0 := by
          rw [← hveq, hSn]
          exact countP_claims_zero s.tokens _ hocc
        rw [h0]
        simp [hv]
      · have hvf : claimsSlot (placedToken s.turn (getFreeSlotUnderMouse pos s.tokens)) v = false := by
          cases hc : claimsSlot (placedToken s.turn (getFreeSlotUnderMouse pos s.tokens)) v
          · rfl
          · exact absurd hc hv
        have hone : [placedToken s.turn (getFreeSlotUnderMouse pos s.tokens)].countP
            (fun t => claimsSlot t v) = 0 := by
          simp [hvf]
        rw [hone]
        have := h v
        omega
    rw [if_pos hfree]
    by_cases hw : checkWin (s.tokens ++ [placedToken s.turn (getFreeSlotUnderMouse pos s.tokens)])
        s.turn winProducts = true
    · rw [if_pos hw]
      exact key
    · rw [if_neg hw]
      exact key
  · rw [if_neg hfree]
    exact h

/-- Whatever the win check says, the arrival of moving token `i` turns
the token list into the one with token `i` snapped to its
destination. -/
theorem arriveToken_tokens (s : GameState) (i : Nat) (t : Token)
    (hget : s.tokens[i]? = some t) (hmov : t.moving = true) :
    (arriveToken s i).tokens = s.tokens.set i
      ({ t with slotIndex := t.nextSlotIndex, moving := false, nextSlotIndex := -1 }) := by
  unfold arriveToken
  simp only [hget, hmov, if_true]
  by_cases hw : checkWin (s.tokens.set i
      ({ t with slotIndex := t.nextSlotIndex, moving := false, nextSlotIndex := -1 }))
      t.owner winProducts = true
  · rw [if_pos hw]
  · rw [if_neg hw]

/-- `arriveToken` shrinks the arriving token's claims to its
destination: the slot invariant is preserved. -/
theorem slotInv_arriveToken (s : GameState) (i : Nat) (h : slotInv s.tokens) :
    slotInv (arriveToken s i).tokens := by
  cases hget : s.tokens[i]? with
  | none =>
    have heq : arriveToken s i = s := by
      unfold arriveToken
      rw [hget]
    rw [heq]
    exact h
  | some t =>
    by_cases hmov : t.moving = true
    · have key : slotInv (s.tokens.set i
          ({ t with slotIndex := t.nextSlotIndex, moving := false, nextSlotIndex := -1 })) := by
        intro v
        obtain ⟨hlen, hk⟩ := List.getElem?_eq_some_iff.mp hget
        have hadd := countP_set_add (fun u => claimsSlot u v) s.tokens i
          ({ t with slotIndex := t.nextSlotIndex, moving := false, nextSlotIndex := -1 }) hlen
        rw [hk] at hadd
        have hv := h v
        cases hc : claimsSlot ({ t with slotIndex := t.nextSlotIndex, moving := false, nextSlotIndex := -1 }) v
        · rw [hc] at hadd
          by_cases ho : claimsSlot t v = true <;> simp [ho] at hadd <;> omega
        · have hold := claimsSlot_arrive t v hmov hc
          rw [hc, hold] at hadd
          simp at hadd
          omega
      rw [arriveToken_tokens s i t hget hmov]
      exact key
    · have heq : arriveToken s i = s := by
        unfold arriveToken
        simp [hget, hmov]
      rw [heq]
      exact h

/-- Every transition preserves the slot invariant. -/
theorem slotInv_step (s : GameState) (e : Ev) (h : slotInv s.tokens) :
    slotInv (step s e).tokens := by
  cases e with
  | arrive i => exact slotInv_arriveToken s i h
  | click pos hit =>
    have hstep : step s (Ev.click pos hit) = handleClick s pos hit := rfl
    rw [hstep]
    unfold handleClick
    split_ifs with h1 h2 h3 h4 h5 h6 h7 h8
    · exact h
    · exact h
    · unfold resetGame
      split_ifs <;> intro v <;> simp
    · exact h
    · exact h
    · exact h
    · exact slotInv_placementClick s pos h
    · exact slotInv_movementClick s pos hit h
    · exact h

/-- Every reachable state satisfies the slot invariant. -/
theorem slotInv_reachable (s : GameState) (h : Reachable s) : slotInv s.tokens := by
  induction h with
  | init => intro v; simp [initState]
  | step e hr ih => exact slotInv_step _ e ih

/-- Every state of an event run is reachable. -/
theorem reachable_run (evs : List Ev) : Reachable (run evs) := by
  unfold run
  have aux : ∀ (l : List Ev) (s : GameState), Reachable s → Reachable (l.foldl step s) := by
    intro l
    induction l with
    | nil => exact fun s hs => hs
    | cons e tl ih => exact fun s hs => ih (step s e) (Reachable.step e hs)
  exact aux evs initState Reachable.init

/-! ## C6: slot exclusivity in every reachable state -/

/-- C6: in every state reachable from the initial state by accepted
intents and motion completions, at most one token occupies any given
slot, counting an in-transit token at both its current slot and its
reserved destination. -/
theorem C6_slot_exclusivity (s : GameState) (h : Reachable s) (i : Int) :
    s.tokens.countP (fun t => claimsSlot t i) ≤ 1 :=
  slotInv_reachable s h i

theorem C6_witness : (run c9events).tokens.countP (fun t => claimsSlot t 4) ≤ 1 :=
  C6_slot_exclusivity (run c9events) (reachable_run c9events) 4

/-! ## C9: tokens in transit -/

/-- `deselectOld` does not change how many tokens are moving. -/
theorem movingCount_deselectOld (s : GameState) :
    (deselectOld s).countP (fun t => t.moving) = movingCount s := by
  unfold movingCount
  cases hsel : s.selected with
  | none =>
    have heq : deselectOld s = s.tokens := by
      unfold deselectOld
      rw [hsel]
    rw [heq]
  | some j =>
    cases hget : s.tokens[j]? with
    | none =>
      have heq : deselectOld s = s.tokens := by
        unfold deselectOld
        simp [hsel, hget]
      rw [heq]
    | some tj =>
      have heq : deselectOld s = s.tokens.set j ({ tj with selected := false }) := by
        unfold deselectOld
        simp [hsel, hget]
      rw [heq]
      exact countP_set_eq_of_same _ s.tokens j _ tj hget rfl

/-- Selecting a token does not change how many tokens are moving. -/
theorem movingCount_selectClick (s : GameState) (i : Nat) :
    movingCount (selectClick s i) = movingCount s := by
  unfold selectClick
  cases hget : (deselectOld s)[i]? with
  | none => rfl
  | some ti =>
    calc ((deselectOld s).set i ({ ti with selected := true })).countP (fun t => t.moving)
        = (deselectOld s).countP (fun t => t.moving) :=
          countP_set_eq_of_same _ (deselectOld s) i _ ti hget rfl
      _ = movingCount s := movingCount_deselectOld s

/-- A move intent sets at most one additional token in motion. -/
theorem movingCount_moveClick (s : GameState) (pos : Int × Int) :
    movingCount (moveClick s pos) ≤ movingCount s + 1 := by
  rcases moveClick_cases s pos with hmc | ⟨j, tj, hsel, hget, hmov, hfree, hmc⟩
  · rw [hmc]
    omega
  · rw [hmc]
    exact countP_set_le_succ _ s.tokens j _

/-- A Movement-phase click sets at most one additional token in
motion. -/
theorem movingCount_movementClick (s : GameState) (pos : Int × Int) (hit : Option Nat) :
    movingCount (movementClick s pos hit) ≤ movingCount s + 1 := by
  cases hit with
  | none => exact movingCount_moveClick s pos
  | some i =>
    cases hget : s.tokens[i]? with
    | none =>
      have heq : movementClick s pos (some i) = s := by
        unfold movementClick
        simp [hget]
      rw [heq]
      omega
    | some ti =>
      by_cases ho : ti.owner = s.turn
      · have heq : movementClick s pos (some i) = selectClick s i := by
          unfold movementClick
          simp [hget, ho]
        rw [heq, movingCount_selectClick s i]
        omega
      · have heq : movementClick s pos (some i) = s := by
          unfold movementClick
          simp [hget, ho]
        rw [heq]
        omega

/-- A placement appends a stationary token: the number of moving
tokens does not grow beyond one extra. -/
theorem movingCount_placementClick (s : GameState) (pos : Int × Int) :
    movingCount (placementClick s pos) ≤ movingCount s + 1 := by
  unfold placementClick
  by_cases hfree : getFreeSlotUnderMouse pos s.tokens ≠ -1
  · rw [if_pos hfree]
    have h0 : [placedToken s.turn (getFreeSlotUnderMouse pos s.tokens)].countP
        (fun t => t.moving) = 0 := rfl
    by_cases hw : checkWin (s.tokens ++ [placedToken s.turn (getFreeSlotUnderMouse pos s.tokens)])
        s.turn winProducts = true
    · rw [if_pos hw]
      unfold movingCount
      rw [List.countP_append, h0]
      omega
    · rw [if_neg hw]
      unfold movingCount
      rw [List.countP_append, h0]
      omega
  · rw [if_neg hfree]
    omega

/-- A motion completion never increases the number of moving tokens. -/
theorem movingCount_arriveToken (s : GameState) (i : Nat) :
    movingCount (arriveToken s i) ≤ movingCount s + 1 := by
  cases hget : s.tokens[i]? with
  | none =>
    have heq : arriveToken s i = s := by
      unfold arriveToken
      rw [hget]
    rw [heq]
    omega
  | some t =>
    by_cases hmov : t.moving = true
    · have htok := arriveToken_tokens s i t hget hmov
      unfold movingCount
      rw [htok]
      exact countP_set_le_succ _ s.tokens i _
    · have heq : arriveToken s i = s := by
        unfold arriveToken
        simp [hget, hmov]
      rw [heq]
      omega

/-- C9 (amended): a single step - one click or one motion completion -
increases the number of tokens in transit by at most one; but "at most
one token in transit at a time" is not an invariant of the reachable
states (see the counterexample). -/
theorem C9_single_transit_step (s : GameState) (e : Ev) :
    movingCount (step s e) ≤ movingCount s + 1 := by
  cases e with
  | arrive i => exact movingCount_arriveToken s i
  | click pos hit =>
    have hstep : step s (Ev.click pos hit) = handleClick s pos hit := rfl
    rw [hstep]
    unfold handleClick
    split_ifs with h1 h2 h3 h4 h5 h6 h7 h8
    · exact Nat.le_succ _
    · exact Nat.le_succ _
    · unfold resetGame movingCount
      split_ifs <;> simp
    · exact Nat.le_succ _
    · exact Nat.le_succ _
    · exact Nat.le_succ _
    · exact movingCount_placementClick s pos
    · exact movingCount_movementClick s pos hit
    · exact Nat.le_succ _

/-- C9 counterexample: after the reachable trace `c9events` - player A
starts a second slide while the first token is still in transit - two
tokens are moving at once, so at most one token in transit is not an
invariant of the reachable states. -/
theorem C9_counterexample :
    Reachable (run c9events) ∧ movingCount (run c9events) = 2 :=
  ⟨reachable_run c9events, by decide⟩

/-! ## C1: the prime-product win test -/

/-- Values already inside the 32-bit signed range are unchanged by the
wraparound. -/
theorem wrap32_eq_self (x : Int) (h1 : 0 ≤ x) (h2 : x < 2^31) : wrap32 x = x := by
  unfold wrap32
  rw [Int.emod_eq_of_lt (by omega) (by omega)]
  omega

/-- Every valid slot has weight at least 1. -/
theorem primeAt_pos (j : Int) (h1 : 0 ≤ j) (h2 : j < 9) : 1 ≤ primeAt slots j := by
  interval_cases j <;> decide

/-- The exact product of the primes of a valid slot list is positive. -/
theorem pureProd_pos (l : List Int) (hv : ∀ j ∈ l, 0 ≤ j ∧ j < 9) :
    1 ≤ pureProdSlots l := by
  induction l with
  | nil => decide
  | cons j tl ih =>
    have h1 : 1 ≤ primeAt slots j := primeAt_pos j (hv j (by simp)).1 (hv j (by simp)).2
    have h2 : 1 ≤ pureProdSlots tl := ih (fun x hx => hv x (by simp [hx]))
    have hexp : pureProdSlots (j :: tl) = primeAt slots j * pureProdSlots tl := by
      simp [pureProdSlots]
    rw [hexp]
    nlinarith

/-- As long as the exact product stays below 2^31, the wrapping fold of
`checkWin` computes it exactly. -/
theorem prodSlots_go (l : List Int) : ∀ a : Int, (∀ j ∈ l, 0 ≤ j ∧ j < 9) → 0 ≤ a →
    a * pureProdSlots l < 2^31 →
    l.foldl (fun acc j => wrap32 (acc * primeAt slots j)) a = a * pureProdSlots l := by
  induction l with
  | nil =>
    intro a ha hb
    simp [pureProdSlots]
  | cons j tl ih =>
    intro a hv ha hb
    have hj := hv j (by simp)
    have hvtl : ∀ x ∈ tl, 0 ≤ x ∧ x < 9 := fun x hx => hv x (by simp [hx])
    have hp1 : 1 ≤ primeAt slots j := primeAt_pos j hj.1 hj.2
    have hq1 : 1 ≤ pureProdSlots tl := pureProd_pos tl hvtl
    have hexp : pureProdSlots (j :: tl) = primeAt slots j * pureProdSlots tl := by
      simp [pureProdSlots]
    have hnn : 0 ≤ a * primeAt slots j := mul_nonneg ha (by omega)
    have hble : a * primeAt slots j * pureProdSlots tl < 2^31 := by
      rw [hexp, ← mul_assoc] at hb
      exact hb
    have hlt : a * primeAt slots j < 2^31 := by
      nlinarith
    rw [List.foldl_cons, wrap32_eq_self _ hnn hlt, ih (a * primeAt slots j) hvtl hnn hble,
      hexp, mul_assoc]

/-- The token fold of `checkWin` equals the slot fold over the occupied
slots. -/
theorem playerProduct_eq (tokens : List Token) (player : Player) :
    playerProduct tokens player = prodSlots (occupiedSlots tokens player) := by
  unfold playerProduct prodSlots occupiedSlots
  have aux : ∀ (l : List Token) (a : Int),
      l.foldl (fun acc t =>
        if t.owner = player ∧ t.slotIndex ≠ -1 then wrap32 (acc * primeAt slots t.slotIndex)
        else acc) a =
      ((l.filter fun t => decide (t.owner = player ∧ t.slotIndex ≠ -1)).map
        Token.slotIndex).foldl (fun acc j => wrap32 (acc * primeAt slots j)) a := by
    intro l
    induction l with
    | nil => intro a; rfl
    | cons t ts ih =>
      intro a
      by_cases hc : t.owner = player ∧ t.slotIndex ≠ -1
      · have hd : decide (t.owner = player ∧ t.slotIndex ≠ -1) = true := decide_eq_true hc
        rw [List.foldl_cons, if_pos hc, List.filter_cons, hd, if_pos rfl, List.map_cons,
          List.foldl_cons]
        exact ih _
      · have hd : decide (t.owner = player ∧ t.slotIndex ≠ -1) = false := decide_eq_false hc
        rw [List.foldl_cons, if_neg hc, List.filter_cons, hd, if_neg Bool.false_ne_true]
        exact ih a
  exact aux tokens 1

/-- Occupancy of a valid slot is membership in the occupied-slot list. -/
theorem occupies_iff_mem (tokens : List Token) (player : Player) (j : Int) (hj : 0 ≤ j) :
    occupies tokens player j ↔ j ∈ occupiedSlots tokens player := by
  unfold occupies occupiedSlots
  rw [List.mem_map]
  constructor
  · rintro ⟨t, ht, hown, hslot⟩
    refine ⟨t, ?_, hslot⟩
    rw [List.mem_filter]
    refine ⟨ht, ?_⟩
    rw [decide_eq_true_eq]
    exact ⟨hown, by omega⟩
  · rintro ⟨t, htf, hslot⟩
    rw [List.mem_filter] at htf
    have hcond := htf.2
    rw [decide_eq_true_eq] at hcond
    exact ⟨t, htf.1, hcond.1, hslot⟩

/-- The exact product over duplicate-free valid slots missing at least
one slot stays below 2^31: it divides the product of the other eight
primes, which is at most 13·3·23·17·11·29·7·19 = 1078282205. -/
theorem pureProd_lt_of_missing (l : List Int) (hv : ∀ j ∈ l, 0 ≤ j ∧ j < 9)
    (hnd : l.Nodup) (m : Int) (hm0 : 0 ≤ m) (hm9 : m < 9) (hnm : m ∉ l) :
    pureProdSlots l < 2^31 := by
  have hsub : l ⊆ ([0, 1, 2, 3, 4, 5, 6, 7, 8] : List Int).filter (fun j => decide (j ≠ m)) := by
    intro j hj
    rw [List.mem_filter]
    constructor
    · have hvj := hv j hj
      have h09 : j = 0 ∨ j = 1 ∨ j = 2 ∨ j = 3 ∨ j = 4 ∨ j = 5 ∨ j = 6 ∨ j = 7 ∨ j = 8 := by
        omega
      rcases h09 with rfl | rfl | rfl | rfl | rfl | rfl | rfl | rfl | rfl <;> simp
    · rw [decide_eq_true_eq]
      intro hjm
      exact hnm (hjm ▸ hj)
  obtain ⟨l2, hperm, hsl⟩ := hnd.subperm hsub
  have h1 : pureProdSlots l = pureProdSlots l2 := by
    unfold pureProdSlots
    exact (List.Perm.prod_eq ((hperm.map (primeAt slots)))).symm
  have h2 : pureProdSlots l2 ∣
      pureProdSlots (([0, 1, 2, 3, 4, 5, 6, 7, 8] : List Int).filter (fun j => decide (j ≠ m))) :=
    List.Sublist.prod_dvd_prod (hsl.map (primeAt slots))
  have h3 : pureProdSlots (([0, 1, 2, 3, 4, 5, 6, 7, 8] : List Int).filter
      (fun j => decide (j ≠ m))) ≤ 1078282205 := by
    interval_cases m <;> decide
  have h4 : 0 < pureProdSlots (([0, 1, 2, 3, 4, 5, 6, 7, 8] : List Int).filter
      (fun j => decide (j ≠ m))) := by
    interval_cases m <;> decide
  have h5 : pureProdSlots l ≤ 1078282205 := by
    rw [h1]
    exact le_trans (Int.le_of_dvd h4 h2) h3
  omega

/-- The prime of one valid slot divides the prime of another exactly
when the slots coincide: the nine weights are distinct primes. -/
theorem huniq_slot (n : Int) (h0 : 0 ≤ n) (hn : n < 9) :
    ∀ j : Int, 0 ≤ j → j < 9 → (primeAt slots n ∣ primeAt slots j ↔ j = n) := by
  intro j h1 h2
  interval_cases n <;> interval_cases j <;> rw [Int.dvd_iff_emod_eq_zero] <;> decide

/-- Each slot weight is a prime of ℤ. -/
theorem prime_slot (n : Int) (h0 : 0 ≤ n) (hn : n < 9) : Prime (primeAt slots n) := by
  interval_cases n
  · rw [Int.prime_iff_natAbs_prime]
    exact (by norm_num : Nat.Prime 13)
  · rw [Int.prime_iff_natAbs_prime]
    exact (by norm_num : Nat.Prime 3)
  · rw [Int.prime_iff_natAbs_prime]
    exact (by norm_num : Nat.Prime 23)
  · rw [Int.prime_iff_natAbs_prime]
    exact (by norm_num : Nat.Prime 17)
  · rw [Int.prime_iff_natAbs_prime]
    exact (by norm_num : Nat.Prime 11)
  · rw [Int.prime_iff_natAbs_prime]
    exact (by norm_num : Nat.Prime 5)
  · rw [Int.prime_iff_natAbs_prime]
    exact (by norm_num : Nat.Prime 29)
  · rw [Int.prime_iff_natAbs_prime]
    exact (by norm_num : Nat.Prime 7)
  · rw [Int.prime_iff_natAbs_prime]
    exact (by norm_num : Nat.Prime 19)

/-- The weights of two different valid slots are coprime. -/
theorem gcd_primes (a : Int) (ha0 : 0 ≤ a) (ha : a < 9) (b : Int) (hb0 : 0 ≤ b) (hb : b < 9)
    (hne : a ≠ b) : Int.gcd (primeAt slots a) (primeAt slots b) = 1 := by
  interval_cases a <;> interval_cases b <;> first | exact absurd rfl hne | decide

/-- A product of three pairwise coprime factors divides `P` exactly
when each factor does. -/
theorem winproduct_dvd_iff (P qa qb qc : Int)
    (hab : IsCoprime qa qb) (habc : IsCoprime (qa * qb) qc) :
    (qa * qb * qc ∣ P) ↔ (qa ∣ P ∧ qb ∣ P ∧ qc ∣ P) := by
  constructor
  · intro h
    refine ⟨?_, ?_, ?_⟩
    · exact dvd_trans (dvd_mul_of_dvd_left (dvd_mul_right qa qb) qc) h
    · exact dvd_trans (dvd_mul_of_dvd_left (dvd_mul_left qb qa) qc) h
    · exact dvd_trans (dvd_mul_left qc (qa * qb)) h
  · rintro ⟨h1, h2, h3⟩
    exact habc.mul_dvd (hab.mul_dvd h1 h2) h3

/-- C1 (amended): for every collection of tokens whose occupied slots
are valid, pairwise distinct for the player (one token per slot) and
do not cover all nine slots, `checkWin` agrees exactly with
containment of a winning triple in the player's occupied-slot set.
The restriction to a proper subset of the nine slots is forced by the
32-bit `int`: on the full board the product of all nine primes,
3234846615, overflows and the win is missed (see the
counterexample). -/
theorem C1_checkWin_iff_winning_triple (tokens : List Token) (player : Player)
    (hvalid : ∀ t ∈ tokens, t.owner = player → t.slotIndex ≠ -1 →
      0 ≤ t.slotIndex ∧ t.slotIndex < 9)
    (hnodup : (occupiedSlots tokens player).Nodup)
    (hmiss : ∃ m : Int, 0 ≤ m ∧ m < 9 ∧ ¬ occupies tokens player m) :
    (checkWin tokens player winProducts = true ↔
      ∃ c ∈ winCombos, occupies tokens player c.1 ∧ occupies tokens player c.2.1 ∧
        occupies tokens player c.2.2) := by
  obtain ⟨m, hm0, hm9, hmocc⟩ := hmiss
  have hvall : ∀ j ∈ occupiedSlots tokens player, 0 ≤ j ∧ j < 9 := by
    intro j hj
    unfold occupiedSlots at hj
    rw [List.mem_map] at hj
    obtain ⟨t, htf, hslot⟩ := hj
    rw [List.mem_filter, decide_eq_true_eq] at htf
    exact hslot ▸ hvalid t htf.1 htf.2.1 htf.2.2
  have hnm : m ∉ occupiedSlots tokens player := by
    intro hmem
    exact hmocc ((occupies_iff_mem tokens player m hm0).mpr hmem)
  have hbound := pureProd_lt_of_missing (occupiedSlots tokens player) hvall hnodup m hm0 hm9 hnm
  have hP : playerProduct tokens player = pureProdSlots (occupiedSlots tokens player) := by
    rw [playerProduct_eq]
    unfold prodSlots
    rw [prodSlots_go (occupiedSlots tokens player) 1 hvall (by omega)
      (by rw [one_mul]; exact hbound), one_mul]
  have hocc_iff : ∀ n : Int, 0 ≤ n → n < 9 →
      (primeAt slots n ∣ pureProdSlots (occupiedSlots tokens player) ↔
        occupies tokens player n) := by
    intro n hn0 hn9
    unfold pureProdSlots
    rw [Prime.dvd_prod_iff (prime_slot n hn0 hn9)]
    constructor
    · rintro ⟨x, hx, hdvd⟩
      rw [List.mem_map] at hx
      obtain ⟨j, hj, rfl⟩ := hx
      obtain ⟨hj0, hj9⟩ := hvall j hj
      have hje := (huniq_slot n hn0 hn9 j hj0 hj9).mp hdvd
      exact (occupies_iff_mem tokens player n hn0).mpr (hje ▸ hj)
    · intro hocc
      have hmem := (occupies_iff_mem tokens player n hn0).mp hocc
      exact ⟨primeAt slots n, List.mem_map_of_mem _ hmem, dvd_refl _⟩
  have hD : ∀ a : Int, 0 ≤ a → a < 9 → ∀ b : Int, 0 ≤ b → b < 9 → ∀ c : Int, 0 ≤ c → c < 9 →
      a ≠ b → a ≠ c → b ≠ c →
      ((Int.tmod (pureProdSlots (occupiedSlots tokens player))
          (primeAt slots a * primeAt slots b * primeAt slots c) == 0) = true ↔
        (occupies tokens player a ∧ occupies tokens player b ∧ occupies tokens player c)) := by
    intro a ha0 ha9 b hb0 hb9 c hc0 hc9 hab hac hbc
    rw [beq_iff_eq, ← Int.dvd_iff_tmod_eq_zero]
    have cab : IsCoprime (primeAt slots a) (primeAt slots b) :=
      Int.isCoprime_iff_gcd_eq_one.mpr (gcd_primes a ha0 ha9 b hb0 hb9 hab)
    have cac : IsCoprime (primeAt slots a) (primeAt slots c) :=
      Int.isCoprime_iff_gcd_eq_one.mpr (gcd_primes a ha0 ha9 c hc0 hc9 hac)
    have cbc : IsCoprime (primeAt slots b) (primeAt slots c) :=
      Int.isCoprime_iff_gcd_eq_one.mpr (gcd_primes b hb0 hb9 c hc0 hc9 hbc)
    rw [winproduct_dvd_iff _ _ _ _ cab (cac.mul_left cbc)]
    rw [hocc_iff a ha0 ha9, hocc_iff b hb0 hb9, hocc_iff c hc0 hc9]
  simp only [checkWin]
  rw [hP]
  have hwp : winProducts =
      [primeAt slots 0 * primeAt slots 1 * primeAt slots 2,
       primeAt slots 3 * primeAt slots 4 * primeAt slots 5,
       primeAt slots 6 * primeAt slots 7 * primeAt slots 8,
       primeAt slots 0 * primeAt slots 3 * primeAt slots 6,
       primeAt slots 1 * primeAt slots 4 * primeAt slots 7,
       primeAt slots 2 * primeAt slots 5 * primeAt slots 8,
       primeAt slots 0 * primeAt slots 4 * primeAt slots 8,
       primeAt slots 2 * primeAt slots 4 * primeAt slots 6] := rfl
  rw [hwp]
  simp only [List.any_cons, List.any_nil, Bool.or_eq_true, Bool.false_eq_true, or_false]
  rw [hD 0 (by omega) (by omega) 1 (by omega) (by omega) 2 (by omega) (by omega)
      (by omega) (by omega) (by omega),
    hD 3 (by omega) (by omega) 4 (by omega) (by omega) 5 (by omega) (by omega)
      (by omega) (by omega) (by omega),
    hD 6 (by omega) (by omega) 7 (by omega) (by omega) 8 (by omega) (by omega)
      (by omega) (by omega) (by omega),
    hD 0 (by omega) (by omega) 3 (by omega) (by omega) 6 (by omega) (by omega)
      (by omega) (by omega) (by omega),
    hD 1 (by omega) (by omega) 4 (by omega) (by omega) 7 (by omega) (by omega)
      (by omega) (by omega) (by omega),
    hD 2 (by omega) (by omega) 5 (by omega) (by omega) 8 (by omega) (by omega)
      (by omega) (by omega) (by omega),
    hD 0 (by omega) (by omega) 4 (by omega) (by omega) 8 (by omega) (by omega)
      (by omega) (by omega) (by omega),
    hD 2 (by omega) (by omega) 4 (by omega) (by omega) 6 (by omega) (by omega)
      (by omega) (by omega) (by omega)]
  constructor
  · intro h
    rcases h with h | h | h | h | h | h | h | h
    · exact ⟨(0, 1, 2), by decide, h⟩
    · exact ⟨(3, 4, 5), by decide, h⟩
    · exact ⟨(6, 7, 8), by decide, h⟩
    · exact ⟨(0, 3, 6), by decide, h⟩
    · exact ⟨(1, 4, 7), by decide, h⟩
    · exact ⟨(2, 5, 8), by decide, h⟩
    · exact ⟨(0, 4, 8), by decide, h⟩
    · exact ⟨(2, 4, 6), by decide, h⟩
  · rintro ⟨c, hc, hocc3⟩
    simp only [winCombos, List.mem_cons, List.not_mem_nil, or_false] at hc
    rcases hc with rfl | rfl | rfl | rfl | rfl | rfl | rfl | rfl
    · exact Or.inl hocc3
    · exact Or.inr (Or.inl hocc3)
    · exact Or.inr (Or.inr (Or.inl hocc3))
    · exact Or.inr (Or.inr (Or.inr (Or.inl hocc3)))
    · exact Or.inr (Or.inr (Or.inr (Or.inr (Or.inl hocc3))))
    · exact Or.inr (Or.inr (Or.inr (Or.inr (Or.inr (Or.inl hocc3)))))
    · exact Or.inr (Or.inr (Or.inr (Or.inr (Or.inr (Or.inr (Or.inl hocc3))))))
    · exact Or.inr (Or.inr (Or.inr (Or.inr (Or.inr (Or.inr (Or.inr hocc3))))))

/-- C1 counterexample: when player A occupies all nine slots, the
product of all nine primes (3234846615) overflows the 32-bit `int` to
-1060120681, which no line product divides: `checkWin` reports no win
even though the occupied set contains every winning triple.  The
equivalence claimed for every subset of the nine slots therefore fails
at the full board. -/
theorem C1_counterexample :
    ¬ (checkWin fullBoardTokens Player.A winProducts = true ↔
      ∃ c ∈ winCombos, occupies fullBoardTokens Player.A c.1 ∧
        occupies fullBoardTokens Player.A c.2.1 ∧ occupies fullBoardTokens Player.A c.2.2) := by
  decide

theorem C1_witness :
    checkWin [placedToken Player.A 0, placedToken Player.A 1, placedToken Player.A 2]
      Player.A winProducts = true := by
  rw [C1_checkWin_iff_winning_triple _ _ (by decide) (by decide)
    ⟨3, by omega, by omega, by decide⟩]
  exact ⟨(0, 1, 2), by decide, by decide, by decide, by decide⟩

end TMM

